import Mathlib

/-!
Verification of the lookback-option pricing notebooks
(Quantum_Lookback_Call / Quantum_Lookback_Put / Classical_Lookback).

The Python sources are shallowly embedded over the reals:
* `um_mu`, `um_sigma`, `um_mean`, `um_variance`, `um_stddev`, `um_low`,
  `um_high` embed the body of `get_uncertainty_model` (quantum notebooks);
* `get_price_call` / `get_price_put` embed the classical Monte-Carlo
  pricers, with the matrix of standard-normal draws passed explicitly;
* `np_amax` / `np_argmax` model the numpy reductions used by the
  aggregation cells, and `lookback_report` the printed triple;
* `scenarioB_vol` embeds the volatility-override branch of the
  scenario-B scan loop.
-/

namespace Lookback

/-! ## Distribution model: `get_uncertainty_model`

Source (both quantum notebooks, identical bodies):
```
mu = (r - 0.5 * vol**2) * t + np.log(S)
sigma = vol * np.sqrt(t)
mean = np.exp(mu + sigma**2 / 2)
variance = (np.exp(sigma**2) - 1) * np.exp(2 * mu + sigma**2)
stddev = np.sqrt(variance)
low = np.maximum(0, mean - 3 * stddev)
high = mean + 3 * stddev
```
Note the function signature is `get_uncertainty_model(t,
num_uncertainty_qubits=3, S=2.0, vol=0.4, r=0.0)`: there is no
dividend-yield parameter `q`. -/

noncomputable def um_mu (t S vol r : ℝ) : ℝ :=
  (r - 0.5 * vol ^ 2) * t + Real.log S

noncomputable def um_sigma (t vol : ℝ) : ℝ :=
  vol * Real.sqrt t

noncomputable def um_mean (t S vol r : ℝ) : ℝ :=
  Real.exp (um_mu t S vol r + (um_sigma t vol) ^ 2 / 2)

noncomputable def um_variance (t S vol r : ℝ) : ℝ :=
  (Real.exp ((um_sigma t vol) ^ 2) - 1) * Real.exp (2 * um_mu t S vol r + (um_sigma t vol) ^ 2)

noncomputable def um_stddev (t S vol r : ℝ) : ℝ :=
  Real.sqrt (um_variance t S vol r)

noncomputable def um_low (t S vol r : ℝ) : ℝ :=
  max 0 (um_mean t S vol r - 3 * um_stddev t S vol r)

noncomputable def um_high (t S vol r : ℝ) : ℝ :=
  um_mean t S vol r + 3 * um_stddev t S vol r

/-! Spec-side formulas, written from the specification text of §4.1
("Computes mu = (r − q − vol²/2)·τ + ln(S), sigma = vol·√τ, lognormal
mean = exp(mu + sigma²/2), variance = (exp(sigma²) − 1)·exp(2·mu +
sigma²), stddev = √variance. Bounds: low = max(0, mean − 3·stddev),
high = mean + 3·stddev"), to be compared with the embedding above. -/

noncomputable def spec_mu (tau S vol r q : ℝ) : ℝ :=
  (r - q - vol ^ 2 / 2) * tau + Real.log S

noncomputable def spec_sigma (tau vol : ℝ) : ℝ :=
  vol * Real.sqrt tau

noncomputable def spec_mean (mu sigma : ℝ) : ℝ :=
  Real.exp (mu + sigma ^ 2 / 2)

noncomputable def spec_variance (mu sigma : ℝ) : ℝ :=
  (Real.exp (sigma ^ 2) - 1) * Real.exp (2 * mu + sigma ^ 2)

noncomputable def spec_stddev (mu sigma : ℝ) : ℝ :=
  Real.sqrt (spec_variance mu sigma)

noncomputable def spec_low (mean stddev : ℝ) : ℝ :=
  max 0 (mean - 3 * stddev)

noncomputable def spec_high (mean stddev : ℝ) : ℝ :=
  mean + 3 * stddev

/-- C1 (counterexample): the claim asserts that for every dividend yield
`q` the model computes `mu = (r - q - vol^2/2)*tau + ln(S)`; but
`get_uncertainty_model` has no dividend-yield parameter at all, so at
`tau = 1, S = 1, vol = 0, r = 0, q = 1` the code's `mu` is `0` while the
claimed formula gives `-1`. -/
theorem c1_counterexample : um_mu 1 1 0 0 ≠ spec_mu 1 1 0 0 1 := by
  unfold um_mu spec_mu
  rw [Real.log_one]
  norm_num

/-- C1 (amended): for every `tau > 0` and parameters `(S, vol, r)` — the
model has no dividend-yield input, equivalently `q = 0` — the model
computes `mu = (r - 0 - vol^2/2)*tau + ln(S)`, `sigma = vol*sqrt(tau)`,
lognormal mean `exp(mu + sigma^2/2)`, variance
`(exp(sigma^2) - 1)*exp(2*mu + sigma^2)`, `stddev = sqrt(variance)`,
and bounds `low = max(0, mean - 3*stddev)`, `high = mean + 3*stddev`. -/
theorem c1_model_formulas (t S vol r : ℝ) (ht : 0 < t) :
    um_mu t S vol r = spec_mu t S vol r 0
    ∧ um_sigma t vol = spec_sigma t vol
    ∧ um_mean t S vol r = spec_mean (um_mu t S vol r) (um_sigma t vol)
    ∧ um_variance t S vol r = spec_variance (um_mu t S vol r) (um_sigma t vol)
    ∧ um_stddev t S vol r = spec_stddev (um_mu t S vol r) (um_sigma t vol)
    ∧ um_low t S vol r = spec_low (um_mean t S vol r) (um_stddev t S vol r)
    ∧ um_high t S vol r = spec_high (um_mean t S vol r) (um_stddev t S vol r) := by
  refine ⟨?_, rfl, rfl, rfl, rfl, rfl, rfl⟩
  unfold um_mu spec_mu
  ring

/-- C1 (witness): the amended model-formula theorem applied at
`t = 1, S = 2, vol = 3, r = 4`. -/
theorem c1_model_formulas_witness :
    um_mu 1 2 3 4 = spec_mu 1 2 3 4 0
    ∧ um_sigma 1 3 = spec_sigma 1 3
    ∧ um_mean 1 2 3 4 = spec_mean (um_mu 1 2 3 4) (um_sigma 1 3)
    ∧ um_variance 1 2 3 4 = spec_variance (um_mu 1 2 3 4) (um_sigma 1 3)
    ∧ um_stddev 1 2 3 4 = spec_stddev (um_mu 1 2 3 4) (um_sigma 1 3)
    ∧ um_low 1 2 3 4 = spec_low (um_mean 1 2 3 4) (um_stddev 1 2 3 4)
    ∧ um_high 1 2 3 4 = spec_high (um_mean 1 2 3 4) (um_stddev 1 2 3 4) :=
  c1_model_formulas 1 2 3 4 (by norm_num)

/-- C5 (counterexample): at `tau = 0` (so `sigma = 0`) the claim says the
construction fails with `DegenerateDistributionError`; instead
`get_uncertainty_model` performs no validation and returns a degenerate
model with `low = high = 2` (at the notebook defaults `S = 2`,
`vol = 0.4`, `r = 0`). -/
theorem c5_counterexample :
    um_sigma 0 0.4 = 0 ∧ um_low 0 2 0.4 0 = 2 ∧ um_high 0 2 0.4 0 = 2 := by
  have hσ : um_sigma 0 (0.4 : ℝ) = 0 := by
    unfold um_sigma
    rw [Real.sqrt_zero, mul_zero]
  have hmu : um_mu 0 2 0.4 0 = Real.log 2 := by
    unfold um_mu
    ring
  have hmean : um_mean 0 2 0.4 0 = 2 := by
    unfold um_mean
    rw [hσ, hmu]
    norm_num [Real.exp_log]
  have hvar : um_variance 0 2 0.4 0 = 0 := by
    unfold um_variance
    rw [hσ]
    norm_num
  have hsd : um_stddev 0 2 0.4 0 = 0 := by
    unfold um_stddev
    rw [hvar, Real.sqrt_zero]
  refine ⟨hσ, ?_, ?_⟩
  · unfold um_low
    rw [hmean, hsd]
    norm_num
  · unfold um_high
    rw [hmean, hsd]
    norm_num

/-- C5 (amended): `get_uncertainty_model` performs no degeneracy check
and never raises: it is a total computation; for every `S > 0`, `vol`
and `r`, at `tau = 0` it returns `sigma = 0`, `stddev = 0` and the
collapsed bounds `low = high = S` — a silently degenerate model. -/
theorem c5_no_validation (S vol r : ℝ) (hS : 0 < S) :
    um_sigma 0 vol = 0 ∧ um_stddev 0 S vol r = 0
    ∧ um_low 0 S vol r = S ∧ um_high 0 S vol r = S := by
  have hσ : um_sigma 0 vol = 0 := by
    unfold um_sigma
    rw [Real.sqrt_zero, mul_zero]
  have hmu : um_mu 0 S vol r = Real.log S := by
    unfold um_mu
    ring
  have hmean : um_mean 0 S vol r = S := by
    unfold um_mean
    rw [hσ, hmu]
    norm_num [Real.exp_log hS]
  have hvar : um_variance 0 S vol r = 0 := by
    unfold um_variance
    rw [hσ]
    norm_num
  have hsd : um_stddev 0 S vol r = 0 := by
    unfold um_stddev
    rw [hvar, Real.sqrt_zero]
  refine ⟨hσ, hsd, ?_, ?_⟩
  · unfold um_low
    rw [hmean, hsd]
    rw [mul_zero, sub_zero, max_eq_right hS.le]
  · unfold um_high
    rw [hmean, hsd]
    ring

/-- C5 (witness): the no-validation theorem applied at the notebook
defaults `S = 2`, `vol = 0.4`, `r = 0`. -/
theorem c5_no_validation_witness :
    um_sigma 0 0.4 = 0 ∧ um_stddev 0 2 0.4 0 = 0
    ∧ um_low 0 2 0.4 0 = 2 ∧ um_high 0 2 0.4 0 = 2 :=
  c5_no_validation 2 0.4 0 (by norm_num)

/-- C6: for every input with `tau > 0`, the discretization bounds of the
model satisfy `low ≥ 0` unconditionally, and `high > low` whenever
`sigma > 0`. -/
theorem c6_bounds_invariant (t S vol r : ℝ) (ht : 0 < t) :
    0 ≤ um_low t S vol r
    ∧ (0 < um_sigma t vol → um_low t S vol r < um_high t S vol r) := by
  constructor
  · exact le_max_left 0 _
  · intro hs
    have hvar : 0 < um_variance t S vol r := by
      unfold um_variance
      have h1 : (1 : ℝ) < Real.exp ((um_sigma t vol) ^ 2) := by
        calc (1 : ℝ) = Real.exp 0 := Real.exp_zero.symm
        _ < Real.exp ((um_sigma t vol) ^ 2) := Real.exp_lt_exp.mpr (pow_pos hs 2)
      exact mul_pos (by linarith) (Real.exp_pos _)
    have hsd : 0 < um_stddev t S vol r := Real.sqrt_pos.mpr hvar
    have hm : 0 < um_mean t S vol r := Real.exp_pos _
    unfold um_low um_high
    rw [max_lt_iff]
    constructor
    · linarith
    · linarith

/-- C6 (witness): the bounds invariant applied at
`t = 1, S = 2, vol = 3, r = 4`. -/
theorem c6_bounds_invariant_witness :
    0 ≤ um_low 1 2 3 4
    ∧ (0 < um_sigma 1 3 → um_low 1 2 3 4 < um_high 1 2 3 4) :=
  c6_bounds_invariant 1 2 3 4 (by norm_num)

/-! ## Classical sampling oracle: `get_price_call` / `get_price_put`

Source (Classical_Lookback notebook):
```
dt = T / steps
ST = np.log(S) + np.cumsum(((r - q - (sigma**2)/2)*dt
       + sigma * np.sqrt(dt) * np.random.normal(size=(steps, N))), axis=0)
paths = np.exp(ST)
payoffs = np.maximum(paths[-1]-K, 0)        # put: np.maximum(K-paths[-1], 0)
option_price = np.mean(payoffs)*np.exp(-r*T)
```
The matrix of standard-normal draws is passed explicitly as
`z : ℕ → ℕ → ℝ` (`z i j` = draw at time-step `i` of path `j`); the last
row of the cumulative sum is the plain sum over `i < steps`, and the
mean over the `N` paths is the sum divided by `N`. -/

noncomputable def get_price_call (T S K r q sigma : ℝ) (steps N : ℕ)
    (z : ℕ → ℕ → ℝ) : ℝ :=
  (∑ j ∈ Finset.range N,
      max (Real.exp (Real.log S
        + ∑ i ∈ Finset.range steps,
            ((r - q - sigma ^ 2 / 2) * (T / (steps : ℝ))
              + sigma * Real.sqrt (T / (steps : ℝ)) * z i j)) - K) 0)
    / (N : ℝ) * Real.exp (-r * T)

noncomputable def get_price_put (T S K r q sigma : ℝ) (steps N : ℕ)
    (z : ℕ → ℕ → ℝ) : ℝ :=
  (∑ j ∈ Finset.range N,
      max (K - Real.exp (Real.log S
        + ∑ i ∈ Finset.range steps,
            ((r - q - sigma ^ 2 / 2) * (T / (steps : ℝ))
              + sigma * Real.sqrt (T / (steps : ℝ)) * z i j))) 0)
    / (N : ℝ) * Real.exp (-r * T)

lemma price_call_nonneg (T S K r q sigma : ℝ) (steps N : ℕ) (z : ℕ → ℕ → ℝ) :
    0 ≤ get_price_call T S K r q sigma steps N z := by
  unfold get_price_call
  apply mul_nonneg
  · apply div_nonneg
    · exact Finset.sum_nonneg fun j _ => le_max_right _ 0
    · exact Nat.cast_nonneg N
  · exact (Real.exp_pos _).le

lemma price_put_nonneg (T S K r q sigma : ℝ) (steps N : ℕ) (z : ℕ → ℕ → ℝ) :
    0 ≤ get_price_put T S K r q sigma steps N z := by
  unfold get_price_put
  apply mul_nonneg
  · apply div_nonneg
    · exact Finset.sum_nonneg fun j _ => le_max_right _ 0
    · exact Nat.cast_nonneg N
  · exact (Real.exp_pos _).le

lemma drift_sum (c T : ℝ) (steps : ℕ) (hsteps : 0 < steps) :
    ∑ _i ∈ Finset.range steps, c * (T / (steps : ℝ)) = c * T := by
  rw [Finset.sum_const, Finset.card_range, nsmul_eq_mul]
  have hs : (steps : ℝ) ≠ 0 := Nat.cast_ne_zero.mpr hsteps.ne'
  field_simp

lemma step_sum (T r q sigma : ℝ) (steps : ℕ) (hsteps : 0 < steps)
    (zj : ℕ → ℝ) :
    ∑ i ∈ Finset.range steps,
        ((r - q - sigma ^ 2 / 2) * (T / (steps : ℝ))
          + sigma * Real.sqrt (T / (steps : ℝ)) * zj i)
      = (r - q - sigma ^ 2 / 2) * T
        + sigma * Real.sqrt (T / (steps : ℝ)) * ∑ i ∈ Finset.range steps, zj i := by
  rw [Finset.sum_add_distrib, drift_sum _ _ _ hsteps, Finset.mul_sum]

/-- C3: with `steps > 0` (and `T ≥ 0`) the sampling oracle prices one
time step by: (a) accumulating the per-step drift increments
`(r - q - sigma^2/2)*dt` over `steps` intervals to a total drift of
`(r - q - sigma^2/2)*T`; (b) giving the terminal log-price a total
Gaussian coefficient whose squared accumulation over the `steps`
independent draws is `sigma^2*T`, the squared log-space stddev of the
derived log-normal model, so the terminal marginal matches; (c) taking
payoff `max(S_T - K, 0)` for the call and `max(K - S_T, 0)` for the
put; and (d) discounting by `exp(-r*T)` and returning the sample mean
of the discounted payoffs. -/
theorem c3_sampling_oracle (T S K r q sigma : ℝ) (steps N : ℕ)
    (z : ℕ → ℕ → ℝ) (hsteps : 0 < steps) (hT : 0 ≤ T) :
    (∑ _i ∈ Finset.range steps, (r - q - sigma ^ 2 / 2) * (T / (steps : ℝ))
        = (r - q - sigma ^ 2 / 2) * T)
    ∧ (steps : ℝ) * (sigma * Real.sqrt (T / (steps : ℝ))) ^ 2 = (um_sigma T sigma) ^ 2
    ∧ get_price_call T S K r q sigma steps N z
        = Real.exp (-(r * T)) * (∑ j ∈ Finset.range N,
            max (Real.exp (Real.log S + (r - q - sigma ^ 2 / 2) * T
              + sigma * Real.sqrt (T / (steps : ℝ))
                * ∑ i ∈ Finset.range steps, z i j) - K) 0) / (N : ℝ)
    ∧ get_price_put T S K r q sigma steps N z
        = Real.exp (-(r * T)) * (∑ j ∈ Finset.range N,
            max (K - Real.exp (Real.log S + (r - q - sigma ^ 2 / 2) * T
              + sigma * Real.sqrt (T / (steps : ℝ))
                * ∑ i ∈ Finset.range steps, z i j)) 0) / (N : ℝ) := by
  have hs : (steps : ℝ) ≠ 0 := Nat.cast_ne_zero.mpr hsteps.ne'
  refine ⟨drift_sum _ _ _ hsteps, ?_, ?_, ?_⟩
  · have hdt : (0 : ℝ) ≤ T / (steps : ℝ) := div_nonneg hT (Nat.cast_nonneg steps)
    unfold um_sigma
    rw [mul_pow, mul_pow, Real.sq_sqrt hdt, Real.sq_sqrt hT]
    field_simp
  · have hsum : ∀ j : ℕ,
        Real.log S + ∑ i ∈ Finset.range steps,
            ((r - q - sigma ^ 2 / 2) * (T / (steps : ℝ))
              + sigma * Real.sqrt (T / (steps : ℝ)) * z i j)
          = Real.log S + (r - q - sigma ^ 2 / 2) * T
            + sigma * Real.sqrt (T / (steps : ℝ)) * ∑ i ∈ Finset.range steps, z i j := by
      intro j
      rw [step_sum T r q sigma steps hsteps, add_assoc]
    unfold get_price_call
    rw [Finset.sum_congr rfl fun j _ => by rw [hsum j]]
    rw [neg_mul]
    ring
  · have hsum : ∀ j : ℕ,
        Real.log S + ∑ i ∈ Finset.range steps,
            ((r - q - sigma ^ 2 / 2) * (T / (steps : ℝ))
              + sigma * Real.sqrt (T / (steps : ℝ)) * z i j)
          = Real.log S + (r - q - sigma ^ 2 / 2) * T
            + sigma * Real.sqrt (T / (steps : ℝ)) * ∑ i ∈ Finset.range steps, z i j := by
      intro j
      rw [step_sum T r q sigma steps hsteps, add_assoc]
    unfold get_price_put
    rw [Finset.sum_congr rfl fun j _ => by rw [hsum j]]
    rw [neg_mul]
    ring

/-- C3 (witness): the sampling-oracle decomposition applied at
`T = 1, S = 1, K = 1, r = 0, q = 0, sigma = 1, steps = 1, N = 1` with
all draws zero. -/
theorem c3_sampling_oracle_witness :
    (∑ _i ∈ Finset.range 1, ((0 : ℝ) - 0 - 1 ^ 2 / 2) * (1 / ((1 : ℕ) : ℝ))
        = ((0 : ℝ) - 0 - 1 ^ 2 / 2) * 1)
    ∧ ((1 : ℕ) : ℝ) * (1 * Real.sqrt (1 / ((1 : ℕ) : ℝ))) ^ 2 = (um_sigma 1 1) ^ 2
    ∧ get_price_call 1 1 1 0 0 1 1 1 (fun _ _ => 0)
        = Real.exp (-((0 : ℝ) * 1)) * (∑ j ∈ Finset.range 1,
            max (Real.exp (Real.log 1 + ((0 : ℝ) - 0 - 1 ^ 2 / 2) * 1
              + 1 * Real.sqrt (1 / ((1 : ℕ) : ℝ))
                * ∑ _i ∈ Finset.range 1, (0 : ℝ)) - 1) 0) / ((1 : ℕ) : ℝ)
    ∧ get_price_put 1 1 1 0 0 1 1 1 (fun _ _ => 0)
        = Real.exp (-((0 : ℝ) * 1)) * (∑ j ∈ Finset.range 1,
            max (1 - Real.exp (Real.log 1 + ((0 : ℝ) - 0 - 1 ^ 2 / 2) * 1
              + 1 * Real.sqrt (1 / ((1 : ℕ) : ℝ))
                * ∑ _i ∈ Finset.range 1, (0 : ℝ))) 0) / ((1 : ℕ) : ℝ) :=
  c3_sampling_oracle 1 1 1 0 0 1 1 1 (fun _ _ => 0) (by norm_num) (by norm_num)

/-! ## Resolution-bounded oracle: `get_ae_results`

The quantum notebooks hand the estimation itself to an external
collaborator (`IterativeAmplitudeEstimation` from qiskit, out of scope
per the spec); the repository code only builds the estimation problem
and projects the returned record:
```
result = ae.estimate(problem)
expected_payoff = result.estimation_processed
conf_int = np.array(result.confidence_interval_processed)
return expected_payoff, conf_int
```
The external result is embedded as an explicit record. -/

structure AEResult where
  estimation_processed : ℝ
  ci_lower : ℝ
  ci_upper : ℝ

def get_ae_results (result : AEResult) : ℝ × ℝ × ℝ :=
  (result.estimation_processed, result.ci_lower, result.ci_upper)

/-- C7: every pricing result of either oracle has nonnegative expected
payoff lying inside its confidence interval: the classical sampling
prices are nonnegative for all inputs and draws (their interval, which
the notebook does not compute, collapses to the point estimate), and
the resolution-bounded oracle returns the external estimator's
processed estimate and interval unchanged, so whenever that external
collaborator meets its contract (`lower ≤ estimate ≤ upper`,
`0 ≤ estimate`) the returned `PricingResult` does too. -/
theorem c7_result_invariant (T S K r q sigma : ℝ) (steps N : ℕ)
    (z : ℕ → ℕ → ℝ) (res : AEResult)
    (h1 : res.ci_lower ≤ res.estimation_processed)
    (h2 : res.estimation_processed ≤ res.ci_upper)
    (h3 : 0 ≤ res.estimation_processed) :
    0 ≤ get_price_call T S K r q sigma steps N z
    ∧ 0 ≤ get_price_put T S K r q sigma steps N z
    ∧ (get_ae_results res).2.1 ≤ (get_ae_results res).1
    ∧ (get_ae_results res).1 ≤ (get_ae_results res).2.2
    ∧ 0 ≤ (get_ae_results res).1 :=
  ⟨price_call_nonneg T S K r q sigma steps N z,
   price_put_nonneg T S K r q sigma steps N z, h1, h2, h3⟩

/-- C7 (witness): the result invariant applied to concrete inputs and
the external record `estimate = 1`, interval `(0, 2)`. -/
theorem c7_result_invariant_witness :
    0 ≤ get_price_call 1 1 1 0 0 1 1 1 (fun _ _ => 0)
    ∧ 0 ≤ get_price_put 1 1 1 0 0 1 1 1 (fun _ _ => 0)
    ∧ (get_ae_results ⟨1, 0, 2⟩).2.1 ≤ (get_ae_results ⟨1, 0, 2⟩).1
    ∧ (get_ae_results ⟨1, 0, 2⟩).1 ≤ (get_ae_results ⟨1, 0, 2⟩).2.2
    ∧ 0 ≤ (get_ae_results ⟨1, 0, 2⟩).1 :=
  c7_result_invariant 1 1 1 0 0 1 1 1 (fun _ _ => 0) ⟨1, 0, 2⟩
    (by norm_num) (by norm_num) (by norm_num)

/-! ## Piecewise-linear put objective built by `get_ae_results`

Source (put notebook):
```
breakpoints = [low, strike_price]
slopes = [-1, 0]
offsets = [strike_price - low, 0]
f_min = 0
f_max = strike_price - low
```
Under the piecewise-linear semantics (the segment of the last
breakpoint `≤ x` applies), the encoded objective on the domain
`[low, high]` is `(K - low) + (-1)*(x - low)` below the strike and `0`
at or above it. -/

noncomputable def put_objective (low K x : ℝ) : ℝ :=
  if x < K then (K - low) + (-1) * (x - low) else 0

/-- C8: the oracles accept every strike `K`, including `K` outside
`[low, high]`, as a valid input: the piecewise-linear put objective is
total and equals the saturated payoff `max(K - x, 0)` on the domain,
hence stays within `[0, max(K - low, 0)]`; it is identically `0` when
`K ≤ low` and sits on the linear branch (saturating at `K - low`) when
`high < K`; and the classical sampling prices are defined and
nonnegative for every `K`, with no error path anywhere. -/
theorem c8_strike_out_of_range (low high K x : ℝ) (hx1 : low ≤ x) (hx2 : x ≤ high) :
    put_objective low K x = max (K - x) 0
    ∧ 0 ≤ put_objective low K x
    ∧ put_objective low K x ≤ max (K - low) 0
    ∧ (K ≤ low → put_objective low K x = 0)
    ∧ (high < K → put_objective low K x = (K - low) + (-1) * (x - low))
    ∧ ∀ (T S r q sigma : ℝ) (steps N : ℕ) (z : ℕ → ℕ → ℝ),
        0 ≤ get_price_call T S K r q sigma steps N z
        ∧ 0 ≤ get_price_put T S K r q sigma steps N z := by
  have hmax : put_objective low K x = max (K - x) 0 := by
    unfold put_objective
    split_ifs with h
    · rw [max_eq_left (by linarith)]
      ring
    · rw [max_eq_right (by linarith)]
  refine ⟨hmax, ?_, ?_, ?_, ?_, ?_⟩
  · rw [hmax]
    exact le_max_right _ 0
  · rw [hmax]
    exact max_le_max (by linarith) le_rfl
  · intro hK
    unfold put_objective
    split_ifs with h
    · linarith
    · rfl
  · intro hK
    unfold put_objective
    split_ifs with h
    · rfl
    · have hxK : x < K := lt_of_le_of_lt hx2 hK
      exact absurd hxK h
  · intro T S r q sigma steps N z
    exact ⟨price_call_nonneg T S K r q sigma steps N z,
           price_put_nonneg T S K r q sigma steps N z⟩

/-- C8 (witness): the out-of-range-strike theorem applied at
`low = 0, high = 1, K = 2, x = 1/2` (a strike above the whole support). -/
theorem c8_strike_out_of_range_witness :
    put_objective 0 2 (1 / 2) = max (2 - 1 / 2) 0
    ∧ 0 ≤ put_objective 0 2 (1 / 2)
    ∧ put_objective 0 2 (1 / 2) ≤ max (2 - 0) 0
    ∧ ((2 : ℝ) ≤ 0 → put_objective 0 2 (1 / 2) = 0)
    ∧ ((1 : ℝ) < 2 → put_objective 0 2 (1 / 2) = (2 - 0) + (-1) * (1 / 2 - 0))
    ∧ ∀ (T S r q sigma : ℝ) (steps N : ℕ) (z : ℕ → ℕ → ℝ),
        0 ≤ get_price_call T S 2 r q sigma steps N z
        ∧ 0 ≤ get_price_put T S 2 r q sigma steps N z :=
  c8_strike_out_of_range 0 1 2 (1 / 2) (by norm_num) (by norm_num)

/-- C10: for a fixed matrix of draws and fixed other parameters, the
sampling oracle is monotone in the strike: the call price is
nonincreasing and the put price is nondecreasing in `K`. -/
theorem c10_strike_monotone (T S r q sigma : ℝ) (steps N : ℕ)
    (z : ℕ → ℕ → ℝ) (K1 K2 : ℝ) (hK : K1 ≤ K2) :
    get_price_call T S K2 r q sigma steps N z
      ≤ get_price_call T S K1 r q sigma steps N z
    ∧ get_price_put T S K1 r q sigma steps N z
      ≤ get_price_put T S K2 r q sigma steps N z := by
  have hinv : (0 : ℝ) ≤ ((N : ℝ))⁻¹ := inv_nonneg.mpr (Nat.cast_nonneg N)
  constructor
  · unfold get_price_call
    rw [div_eq_mul_inv, div_eq_mul_inv]
    apply mul_le_mul_of_nonneg_right _ (Real.exp_pos _).le
    apply mul_le_mul_of_nonneg_right _ hinv
    apply Finset.sum_le_sum
    intro j _
    exact max_le_max (by linarith) le_rfl
  · unfold get_price_put
    rw [div_eq_mul_inv, div_eq_mul_inv]
    apply mul_le_mul_of_nonneg_right _ (Real.exp_pos _).le
    apply mul_le_mul_of_nonneg_right _ hinv
    apply Finset.sum_le_sum
    intro j _
    exact max_le_max (by linarith) le_rfl

/-- C10 (witness): strike monotonicity applied at strikes `1 ≤ 2` with
all draws zero. -/
theorem c10_strike_monotone_witness :
    get_price_call 1 1 2 0 0 1 1 1 (fun _ _ => 0)
      ≤ get_price_call 1 1 1 0 0 1 1 1 (fun _ _ => 0)
    ∧ get_price_put 1 1 1 0 0 1 1 1 (fun _ _ => 0)
      ≤ get_price_put 1 1 2 0 0 1 1 1 (fun _ _ => 0) :=
  c10_strike_monotone 1 1 0 0 1 1 1 (fun _ _ => 0) 1 2 (by norm_num)

/-! ## Extremum selector

Source (aggregation cells, identical in all notebooks):
```
print(f"Lookback Option Expected Payoff: {np.amax(results)}")
print(f"Payoff 95% CI w/ eps 0.01: {conf_list[np.argmax(results)]}")
print(f"Lookback Option Day of Max Payoff: {np.argmax(results)+1}")
```
`np.amax` is the maximum of the vector, and `np.argmax` the index of
its first occurrence; they are modelled structurally on a nonempty list
`x :: xs` (the scan always produces 40 entries). The aggregation does
not look at the option kind: the same three lines run in the call and
in the put notebooks. -/

def np_amax {α : Type} [LinearOrder α] (x : α) : List α → α
  | [] => x
  | y :: ys => max x (np_amax y ys)

def np_argmax {α : Type} [LinearOrder α] (x : α) : List α → ℕ
  | [] => 0
  | y :: ys => if x < np_amax y ys then np_argmax y ys + 1 else 0

/-- The reported triple: maximum payoff, the confidence interval stored
at the argmax index (unchanged), and the 1-based day index. -/
def lookback_report {α β : Type} [LinearOrder α] (x : α) (xs : List α)
    (confs : List β) (d : β) : α × β × ℕ :=
  (np_amax x xs, confs.getD (np_argmax x xs) d, np_argmax x xs + 1)

lemma le_np_amax {α : Type} [LinearOrder α] (x : α) (xs : List α) :
    ∀ i (hi : i < (x :: xs).length), (x :: xs).get ⟨i, hi⟩ ≤ np_amax x xs := by
  induction xs generalizing x with
  | nil =>
    intro i hi
    match i with
    | 0 => exact le_refl x
  | cons y ys ih =>
    intro i hi
    match i with
    | 0 => exact le_max_left _ _
    | Nat.succ k =>
      have hk : k < (y :: ys).length := Nat.lt_of_succ_lt_succ hi
      calc (x :: y :: ys).get ⟨k + 1, hi⟩ = (y :: ys).get ⟨k, hk⟩ := rfl
      _ ≤ np_amax y ys := ih y k hk
      _ ≤ max x (np_amax y ys) := le_max_right _ _

lemma np_argmax_lt_length {α : Type} [LinearOrder α] (x : α) (xs : List α) :
    np_argmax x xs < (x :: xs).length := by
  induction xs generalizing x with
  | nil => exact Nat.zero_lt_one
  | cons y ys ih =>
    rw [np_argmax]
    split_ifs with h
    · exact Nat.succ_lt_succ (ih y)
    · exact Nat.zero_lt_succ _

lemma np_argmax_get {α : Type} [LinearOrder α] (x : α) (xs : List α) :
    (x :: xs).get ⟨np_argmax x xs, np_argmax_lt_length x xs⟩ = np_amax x xs := by
  induction xs generalizing x with
  | nil => rfl
  | cons y ys ih =>
    rw [np_amax]
    by_cases h : x < np_amax y ys
    · have harg : np_argmax x (y :: ys) = np_argmax y ys + 1 := by
        rw [np_argmax, if_pos h]
      rw [max_eq_right h.le]
      have : (x :: y :: ys).get ⟨np_argmax y ys + 1, by
          rw [List.length_cons]
          exact Nat.succ_lt_succ (np_argmax_lt_length y ys)⟩
          = (y :: ys).get ⟨np_argmax y ys, np_argmax_lt_length y ys⟩ := rfl
      simp only [harg]
      rw [this] at *
      exact ih y
    · have harg : np_argmax x (y :: ys) = 0 := by
        rw [np_argmax, if_neg h]
      rw [max_eq_left (not_lt.mp h)]
      simp only [harg]
      rfl

lemma np_argmax_first {α : Type} [LinearOrder α] (x : α) (xs : List α) :
    ∀ i (hi : i < (x :: xs).length),
      (x :: xs).get ⟨i, hi⟩ = np_amax x xs → np_argmax x xs ≤ i := by
  induction xs generalizing x with
  | nil =>
    intro i hi _
    exact Nat.zero_le i
  | cons y ys ih =>
    intro i hi hget
    rw [np_argmax]
    split_ifs with h
    · match i with
      | 0 =>
        exfalso
        have hx : x = np_amax x (y :: ys) := hget
        rw [np_amax, max_eq_right h.le] at hx
        rw [← hx] at h
        exact lt_irrefl x h
      | Nat.succ k =>
        have hk : k < (y :: ys).length := Nat.lt_of_succ_lt_succ hi
        apply Nat.succ_le_succ
        apply ih y k hk
        have hstep : (x :: y :: ys).get ⟨k + 1, hi⟩ = (y :: ys).get ⟨k, hk⟩ := rfl
        rw [hstep] at hget
        rw [hget, np_amax, max_eq_right h.le]
    · exact Nat.zero_le i

/-- C2: for every nonempty, day-ordered series of per-day results
(payoffs with their confidence intervals), the selector reports exactly
`np.amax` of the payoffs — always a maximum, independent of the option
kind, which never reaches the aggregation — attained at the argmax
index; every entry is `≤` the reported value; on ties the earliest
index wins; the reported day is the 1-based argmax; and the reported
confidence interval is the winning day's stored interval itself, not a
re-derived one. -/
theorem c2_extremum_selector {α β : Type} [LinearOrder α] (x : α) (xs : List α)
    (confs : List β) (d : β) (hlen : confs.length = xs.length + 1) :
    lookback_report x xs confs d
      = (np_amax x xs, confs.getD (np_argmax x xs) d, np_argmax x xs + 1)
    ∧ (∀ i (hi : i < (x :: xs).length), (x :: xs).get ⟨i, hi⟩ ≤ np_amax x xs)
    ∧ (x :: xs).get ⟨np_argmax x xs, np_argmax_lt_length x xs⟩ = np_amax x xs
    ∧ (∀ i (hi : i < (x :: xs).length),
        (x :: xs).get ⟨i, hi⟩ = np_amax x xs → np_argmax x xs ≤ i)
    ∧ ∃ hj : np_argmax x xs < confs.length,
        confs.getD (np_argmax x xs) d = confs.get ⟨np_argmax x xs, hj⟩ := by
  have hj : np_argmax x xs < confs.length := by
    rw [hlen]
    exact np_argmax_lt_length x xs
  exact ⟨rfl, le_np_amax x xs, np_argmax_get x xs, np_argmax_first x xs,
    ⟨hj, List.getD_eq_get confs d hj⟩⟩

/-- C2 (witness): the selector theorem applied to the rational series
`[1, 3, 3, 2]` with intervals `[10, 20, 30, 40]`: the reported value is
`3`, first attained at index `1`, so the day is `2` and the interval
`20`. -/
theorem c2_extremum_selector_witness :
    lookback_report (1 : ℚ) [3, 3, 2] ([10, 20, 30, 40] : List ℚ) 0
      = (np_amax (1 : ℚ) [3, 3, 2],
         ([10, 20, 30, 40] : List ℚ).getD (np_argmax (1 : ℚ) [3, 3, 2]) 0,
         np_argmax (1 : ℚ) [3, 3, 2] + 1)
    ∧ (∀ i (hi : i < ((1 : ℚ) :: [3, 3, 2]).length),
        ((1 : ℚ) :: [3, 3, 2]).get ⟨i, hi⟩ ≤ np_amax (1 : ℚ) [3, 3, 2])
    ∧ ((1 : ℚ) :: [3, 3, 2]).get
        ⟨np_argmax (1 : ℚ) [3, 3, 2], np_argmax_lt_length (1 : ℚ) [3, 3, 2]⟩
        = np_amax (1 : ℚ) [3, 3, 2]
    ∧ (∀ i (hi : i < ((1 : ℚ) :: [3, 3, 2]).length),
        ((1 : ℚ) :: [3, 3, 2]).get ⟨i, hi⟩ = np_amax (1 : ℚ) [3, 3, 2]
          → np_argmax (1 : ℚ) [3, 3, 2] ≤ i)
    ∧ ∃ hj : np_argmax (1 : ℚ) [3, 3, 2] < ([10, 20, 30, 40] : List ℚ).length,
        ([10, 20, 30, 40] : List ℚ).getD (np_argmax (1 : ℚ) [3, 3, 2]) 0
          = ([10, 20, 30, 40] : List ℚ).get ⟨np_argmax (1 : ℚ) [3, 3, 2], hj⟩ :=
  c2_extremum_selector (1 : ℚ) [3, 3, 2] ([10, 20, 30, 40] : List ℚ) 0 (by rfl)

/-! ## Scenario-B override scan

Source (scenario-B loop, identical structure in all three notebooks;
`t` starts at `dt = 1/365` and grows by `dt` each iteration, so
iteration `i` prices maturity `(i+1)/365` and is printed as the 1-based
day `i+1`):
```
for i in range(40):
    if i == 20 or i == 21:  # These are really days 21 and 22
        um, low, high = get_uncertainty_model(t, vol=0.9)
    else:
        um, low, high = get_uncertainty_model(t)  # Still at default 40% vol
```
The saved output cell of every notebook reports
`Lookback Option Day of Max Payoff: 22` for this scenario. -/

noncomputable def scenarioB_vol (i : ℕ) : ℝ :=
  if i = 20 ∨ i = 21 then 0.9 else 0.4

noncomputable def scenarioB_tau (i : ℕ) : ℝ :=
  ((i : ℝ) + 1) / 365

/-- Recorded scenario-B output (saved output cell of the scan). -/
def scenarioB_printed_day : ℕ := 22

/-- C4 (counterexample): the claim places the volatility override on
the 1-based day indices 20 and 21; in the code the override branch
tests the 0-based loop indices 20 and 21, whose printed day indices
are 21 and 22 — at loop index 21 (day 22) the override fires even
though 22 is not among the claimed days. -/
theorem c4_counterexample :
    ¬ (∀ i : ℕ, i < 40 → (scenarioB_vol i = 0.9 ↔ i + 1 = 20 ∨ i + 1 = 21)) := by
  intro h
  have h21 : scenarioB_vol 21 = 0.9 := by
    unfold scenarioB_vol
    norm_num
  have := (h 21 (by norm_num)).mp h21
  omega

/-- C4 (amended): in the scenario-B scan the elevated volatility `0.9`
is used to build the distribution model for exactly the loop indices 20
and 21 — the 1-based day indices 21 and 22 — and the base volatility
`0.4` for every other day; the recorded scenario-B run selects day 22. -/
theorem c4_override_days (i : ℕ) (hi : i < 40) :
    (scenarioB_vol i = 0.9 ↔ i + 1 = 21 ∨ i + 1 = 22)
    ∧ (¬(i + 1 = 21 ∨ i + 1 = 22) → scenarioB_vol i = 0.4)
    ∧ scenarioB_printed_day = 22 := by
  unfold scenarioB_vol
  refine ⟨?_, ?_, rfl⟩
  · by_cases h : i = 20 ∨ i = 21
    · rw [if_pos h]
      constructor
      · intro _
        omega
      · intro _
        rfl
    · rw [if_neg h]
      constructor
      · intro habs
        norm_num at habs
      · intro hday
        omega
  · intro hday
    have h : ¬(i = 20 ∨ i = 21) := by omega
    rw [if_neg h]

/-- C4 (witness): the override theorem applied at loop index 20
(day 21), where the elevated volatility fires. -/
theorem c4_override_days_witness :
    (scenarioB_vol 20 = 0.9 ↔ 20 + 1 = 21 ∨ 20 + 1 = 22)
    ∧ (¬(20 + 1 = 21 ∨ 20 + 1 = 22) → scenarioB_vol 20 = 0.4)
    ∧ scenarioB_printed_day = 22 :=
  c4_override_days 20 (by norm_num)

/-! ## Global random state of the sampling oracle

`get_price_call` draws `np.random.normal(size=(steps, N))` from the
process-wide numpy random state; the function takes no seed or
generator argument. This is modelled by a global stream `g : ℕ → ℝ` of
standard-normal draws and a position: a call consumes the `steps * N`
draws starting at `pos` (row-major, draw `(i, j)` at `pos + i*N + j`)
and advances the position. -/

noncomputable def get_price_call_global (T S K r q sigma : ℝ) (steps N : ℕ)
    (g : ℕ → ℝ) (pos : ℕ) : ℝ × ℕ :=
  (get_price_call T S K r q sigma steps N (fun i j => g (pos + (i * N + j))),
   pos + steps * N)

/-- C9 (counterexample): the sampling oracle takes no seed or generator
parameter, so "two runs with the same seed" are two successive calls
from the same global random state; with the stream `g k = k`, pricing
`T = 1, S = 1, K = 0, r = 0, q = 0, sigma = 1, steps = 1, N = 1` twice
in a row returns `exp(-1/2)` and then `exp(1/2)` — not bit-identical. -/
theorem c9_counterexample :
    (get_price_call_global 1 1 0 0 0 1 1 1 (fun k => (k : ℝ)) 0).1
      ≠ (get_price_call_global 1 1 0 0 0 1 1 1 (fun k => (k : ℝ))
          ((get_price_call_global 1 1 0 0 0 1 1 1 (fun k => (k : ℝ)) 0).2)).1 := by
  have h1 : (get_price_call_global 1 1 0 0 0 1 1 1 (fun k => (k : ℝ)) 0).1
      = Real.exp (-(1 / 2)) := by
    unfold get_price_call_global get_price_call
    rw [Finset.sum_range_one, Finset.sum_range_one]
    norm_num
    exact (Real.exp_pos _).le
  have h2 : (get_price_call_global 1 1 0 0 0 1 1 1 (fun k => (k : ℝ)) 0).2 = 1 := by
    unfold get_price_call_global
    norm_num
  have h3 : (get_price_call_global 1 1 0 0 0 1 1 1 (fun k => (k : ℝ)) 1).1
      = Real.exp (1 / 2) := by
    unfold get_price_call_global get_price_call
    rw [Finset.sum_range_one, Finset.sum_range_one]
    norm_num
    exact (Real.exp_pos _).le
  rw [h1, h2, h3]
  intro habs
  have := Real.exp_eq_exp.mp habs
  norm_num at this

/-- C9 (amended): the sampling oracle is deterministic only relative to
the process-wide random state: its output depends on nothing but the
inputs and the `steps * N` global-stream draws starting at the current
position (so two runs from a bit-identical global state agree), and it
advances that shared position by `steps * N`; randomness is the
implicit global numpy state, not an explicit per-call generator or
seed. -/
theorem c9_global_state_determinism (T S K r q sigma : ℝ) (steps N : ℕ)
    (g g2 : ℕ → ℝ) (pos : ℕ)
    (h : ∀ k, k < steps * N → g (pos + k) = g2 (pos + k)) :
    get_price_call_global T S K r q sigma steps N g pos
      = get_price_call_global T S K r q sigma steps N g2 pos := by
  have hinner : ∀ j, j < N →
      (∑ i ∈ Finset.range steps,
        ((r - q - sigma ^ 2 / 2) * (T / (steps : ℝ))
          + sigma * Real.sqrt (T / (steps : ℝ)) * g (pos + (i * N + j))))
      = ∑ i ∈ Finset.range steps,
        ((r - q - sigma ^ 2 / 2) * (T / (steps : ℝ))
          + sigma * Real.sqrt (T / (steps : ℝ)) * g2 (pos + (i * N + j))) := by
    intro j hj
    apply Finset.sum_congr rfl
    intro i hi
    rw [Finset.mem_range] at hi
    have hk : i * N + j < steps * N := by
      calc i * N + j < i * N + N := Nat.add_lt_add_left hj _
      _ = (i + 1) * N := by ring
      _ ≤ steps * N := Nat.mul_le_mul_right N (Nat.succ_le_of_lt hi)
    rw [h (i * N + j) hk]
  simp only [get_price_call_global, get_price_call, Prod.mk.injEq, and_true]
  rw [Finset.sum_congr rfl fun j hj => by rw [hinner j (Finset.mem_range.mp hj)]]

/-- C9 (witness): global-state determinism applied with two streams that
agree on the consumed window. -/
theorem c9_global_state_determinism_witness :
    get_price_call_global 1 1 1 0 0 1 1 1 (fun _ => 0) 0
      = get_price_call_global 1 1 1 0 0 1 1 1 (fun _ => 0) 0 :=
  c9_global_state_determinism 1 1 1 0 0 1 1 1 (fun _ => 0) (fun _ => 0) 0
    (fun _ _ => rfl)

end Lookback
